import Mathlib

/-!
Verification of the command-risk and execution-state engine of SAGE-CLI.

The definitions below are shallow embeddings of the Python source files
`src/safety.py`, `src/planner.py` and `src/agent_shell.py`: pure Python
functions become Lean functions over `List Char` / `String`, object state
becomes explicit records, and code that raises becomes `Except`.
-/

namespace Sage

/-! ### Python string helpers

Python's `str.strip()` / `str.split()` and the regex class `\s` use the
ASCII whitespace set space, tab, newline, carriage return, vertical tab
and form feed. -/

/-- ASCII whitespace as Python's `str.strip`/`str.split`/regex `\s` see it. -/
def pyWS (c : Char) : Bool :=
  c = ' ' ∨ c = '\t' ∨ c = '\n' ∨ c = '\r' ∨ c = '\x0b' ∨ c = '\x0c'

/-- Drop trailing characters satisfying `p` (helper for `strip`). -/
def dropTrailing (p : Char → Bool) (l : List Char) : List Char :=
  (l.reverse.dropWhile p).reverse

/-- Python `s.strip()` on a character list. -/
def pyStripL (l : List Char) : List Char :=
  dropTrailing pyWS (l.dropWhile pyWS)

/-- Python `s.strip()`. -/
def pyStrip (s : String) : String := ⟨pyStripL s.data⟩

/-- Split a character list at the characters satisfying `ws`, dropping
empty fields (the shape shared by Python's `str.split()` and by
whitespace tokenization); `cur` is the token under construction. -/
def splitWSAux (ws : Char → Bool) (cur : List Char) : List Char → List (List Char)
  | [] => if cur = [] then [] else [cur]
  | c :: rest =>
    if ws c then
      if cur = [] then splitWSAux ws [] rest else cur :: splitWSAux ws [] rest
    else splitWSAux ws (cur ++ [c]) rest

/-- Split on `ws` characters, dropping empty fields. -/
def splitWS (ws : Char → Bool) (l : List Char) : List (List Char) :=
  splitWSAux ws [] l

/-- Python `s.split()` (no argument): split on whitespace runs, dropping
empty fields. -/
def pySplitL : List Char → List (List Char) :=
  splitWS pyWS

/-! ### planner.py : `normalize_command_text` and `is_repeated_failure` -/

/-- One step of `re.sub(r"\s+", " ", command)`: every whitespace character
becomes a space (done by `wsToSpace` below) and consecutive spaces are
then collapsed to one. -/
def squashSpaces : List Char → List Char
  | [] => []
  | [c] => [c]
  | a :: b :: rest =>
    if a = ' ' ∧ b = ' ' then squashSpaces (b :: rest)
    else a :: squashSpaces (b :: rest)

/-- Map each whitespace character to a plain space. -/
def wsToSpace (l : List Char) : List Char :=
  l.map (fun c => if pyWS c then ' ' else c)

/-- `re.sub(r"\s+", " ", command).strip()` from
`planner.normalize_command_text`. -/
def collapseWS (s : String) : String :=
  ⟨pyStripL (squashSpaces (wsToSpace s.data))⟩

/-- `planner.normalize_command_text`: `None` stays `None`, otherwise
collapse whitespace runs to single spaces and trim; an empty result
becomes `None` (`return normalized or None`). -/
def normalize_command_text : Option String → Option String
  | none => none
  | some c =>
    let normalized := collapseWS c
    if normalized = "" then none else some normalized

/-- The slice of `planner.PlannerTurn` the repeated-failure guard reads. -/
structure PlannerTurn where
  suggested_command : String
  executed_command : String
  exit_code : Int
  deriving Repr, DecidableEq

/-- Python truthiness of the `Optional[str]` candidate: `not candidate`
is true for `None` and for the empty string. -/
def strOptFalsy : Option String → Bool
  | none => true
  | some s => s = ""

/-- `planner.is_repeated_failure`: true only when the history has at least
two turns, the candidate is truthy, the two most recent turns both failed,
and the three whitespace-normalized command texts coincide. -/
def is_repeated_failure (candidate : Option String) (history : List PlannerTurn) : Bool :=
  if history.length < 2 ∨ strOptFalsy candidate then false
  else
    match history.reverse with
    | last :: prev :: _ =>
      if last.exit_code = 0 ∨ prev.exit_code = 0 then false
      else
        match normalize_command_text candidate with
        | none => false
        | some nc =>
          match normalize_command_text (some last.executed_command),
                normalize_command_text (some prev.executed_command) with
          | some le, some pe => decide (nc = le) && decide (le = pe)
          | _, _ => false
    | _ => false

/-! ### agent_shell.py : `determine_status` -/

/-- Python truthiness of the `Optional[str]` planner error. -/
def strOptTruthy (o : Option String) : Bool :=
  match o with
  | none => false
  | some s => ¬ s = ""

/-- `agent_shell.determine_status`, with a goal's `history` reduced to the
list of exit codes of its `CommandResult`s (the only field read). -/
def determine_status (history : List Int) (planner_completed : Bool)
    (planner_error : Option String) (user_cancelled : Bool) : String :=
  if strOptTruthy planner_error then "planner_error"
  else if user_cancelled ∧ history = [] then "cancelled"
  else if planner_completed ∧ (history ≠ [] ∧ history.getLast? = some 0) then "completed"
  else if history ≠ [] ∧ history.getLast? ≠ some 0 then "failed"
  else if user_cancelled then "cancelled"
  else if planner_completed then "completed"
  else if history ≠ [] then "incomplete"
  else "no_action"

/-- Fact about the orchestrator goal loop (`agent_shell.py` lines 779-786):
a `chat`-mode planner reply sets `planner_completed` to `True` and breaks
out of the loop, so `determine_status` sees a chat reply only through its
`planner_completed` argument. -/
def planner_completed_after_chat : Bool := true

/-- The status chain exactly as the spec's §4.5 order sentence describes
it, restated from the code's actual behaviour (this is the amended claim
C5): the `completed` exit needs either a successful last command or an
empty history. -/
def determine_status_chain (history : List Int) (planner_completed : Bool)
    (planner_error : Option String) (user_cancelled : Bool) : String :=
  if strOptTruthy planner_error then "planner_error"
  else if user_cancelled ∧ history = [] then "cancelled"
  else if planner_completed ∧ history ≠ [] ∧ history.getLast? = some 0 then "completed"
  else if history ≠ [] ∧ history.getLast? ≠ some 0 then "failed"
  else if user_cancelled then "cancelled"
  else if planner_completed ∧ history = [] then "completed"
  else if history ≠ [] then "incomplete"
  else "no_action"

/-! ### agent_shell.py : `PlanStepState` and `PlanState` -/

/-- `agent_shell.PlanStepState`. -/
structure PlanStepState where
  id : String
  title : Option String
  command : Option String
  description : Option String
  status : String := "pending"
  history_indices : List Int := []
  deriving Repr, DecidableEq

/-- `PlanStepState.label`: title, else command, else `"Step {id}"`.
Python truthiness: empty strings fall through. -/
def PlanStepState.label (s : PlanStepState) : String :=
  match s.title with
  | some t => if t ≠ "" then t else
      match s.command with
      | some c => if c ≠ "" then c else "Step " ++ s.id
      | none => "Step " ++ s.id
  | none =>
    match s.command with
    | some c => if c ≠ "" then c else "Step " ++ s.id
    | none => "Step " ++ s.id

/-- `agent_shell.PlanState`. -/
structure PlanState where
  summary : Option String
  steps : List PlanStepState
  deriving Repr, DecidableEq

/-- `PlanState.current_step`: the first step whose status is not
`"completed"`. -/
def PlanState.current_step (ps : PlanState) : Option PlanStepState :=
  ps.steps.find? (fun s => ¬ s.status = "completed")

/-- `PlanState.get_step`: the first step with the given id. -/
def PlanState.get_step (ps : PlanState) (step_id : String) : Option PlanStepState :=
  ps.steps.find? (fun s => s.id = step_id)

/-- Apply `f` to the first step whose id is `step_id`, leaving the rest of
the list unchanged — the functional image of Python mutating the object
returned by `get_step`. -/
def updateFirst (f : PlanStepState → PlanStepState) (step_id : String) :
    List PlanStepState → List PlanStepState
  | [] => []
  | s :: rest =>
    if s.id = step_id then f s :: rest else s :: updateFirst f step_id rest

/-- `PlanState.mark_running`: no-op on an unknown id or a completed step,
otherwise set the step `in_progress`. -/
def PlanState.mark_running (ps : PlanState) (step_id : String) : PlanState :=
  { ps with
    steps := updateFirst
      (fun s => if s.status = "completed" then s else { s with status := "in_progress" })
      step_id ps.steps }

/-- `PlanState.record_result`: no-op on an unknown id; otherwise append
the history index (when given) and set status to `completed`/`failed`
according to `success` — unconditionally, also on a completed step. -/
def PlanState.record_result (ps : PlanState) (step_id : String) (success : Bool)
    (history_index : Option Int) : PlanState :=
  { ps with
    steps := updateFirst
      (fun s =>
        { s with
          history_indices := s.history_indices ++
            (match history_index with | some i => [i] | none => []),
          status := if success then "completed" else "failed" })
      step_id ps.steps }

/-! ### agent_shell.py : `CommandStats` and `CommandScoreboard` -/

/-- `agent_shell.CommandStats` (the two stored counters; `score` and
`total` are derived properties). -/
structure CommandStats where
  successes : Nat := 0
  failures : Nat := 0
  deriving Repr, DecidableEq

/-- `CommandStats.record`. -/
def CommandStats.record (st : CommandStats) (success : Bool) : CommandStats :=
  if success then { st with successes := st.successes + 1 }
  else { st with failures := st.failures + 1 }

/-- `CommandStats.score` (`successes - failures`, over the integers). -/
def CommandStats.score (st : CommandStats) : Int :=
  (st.successes : Int) - (st.failures : Int)

/-- `CommandStats.total`. -/
def CommandStats.total (st : CommandStats) : Nat :=
  st.successes + st.failures

/-- The whitespace set of Python's `shlex` lexer (`shlex.whitespace`,
used by `shlex.split`): space, tab, carriage return, newline — note that
form feed and vertical tab are not in it. -/
def shlexWS (c : Char) : Bool :=
  c = ' ' ∨ c = '\t' ∨ c = '\r' ∨ c = '\n'

/-- Lexer mode of `shlex.split` in POSIX mode: between/inside a plain
token, inside single quotes, inside double quotes. -/
inductive SMode
  | norm
  | single
  | double
  deriving Repr, DecidableEq

/-- The state machine of `shlex.split(command)` (POSIX rules,
`whitespace_split=True`, comments off): whitespace separates tokens,
`'...'` is taken literally, inside `"..."` a backslash escapes only `"`
and `\`, a bare backslash escapes the next character, and an unterminated
quote or trailing escape raises `ValueError` (modelled as `.error ()`).
`cur` is the token being built, `started` whether a token is open (so
`''` yields an empty token), `acc` the finished tokens. -/
def shlexRun : List Char → SMode → List Char → Bool → List (List Char) →
    Except Unit (List (List Char))
  | [], .norm, cur, started, acc =>
    .ok (acc ++ if started then [cur] else [])
  | [], .single, _, _, _ => .error ()
  | [], .double, _, _, _ => .error ()
  | c :: rest, .norm, cur, started, acc =>
    if shlexWS c then
      shlexRun rest .norm [] false (acc ++ if started then [cur] else [])
    else if c = '\'' then shlexRun rest .single cur true acc
    else if c = '"' then shlexRun rest .double cur true acc
    else if c = '\\' then
      match rest with
      | [] => .error ()
      | d :: rest2 => shlexRun rest2 .norm (cur ++ [d]) true acc
    else shlexRun rest .norm (cur ++ [c]) true acc
  | c :: rest, .single, cur, _, acc =>
    if c = '\'' then shlexRun rest .norm cur true acc
    else shlexRun rest .single (cur ++ [c]) true acc
  | c :: rest, .double, cur, _, acc =>
    if c = '"' then shlexRun rest .norm cur true acc
    else if c = '\\' then
      match rest with
      | [] => .error ()
      | d :: rest2 =>
        if d = '"' ∨ d = '\\' then shlexRun rest2 .double (cur ++ [d]) true acc
        else shlexRun rest2 .double (cur ++ [c, d]) true acc
    else shlexRun rest .double (cur ++ [c]) true acc

/-- `shlex.split(command)`. -/
def shlexSplit (s : String) : Except Unit (List String) :=
  (shlexRun s.data .norm [] false []).map (·.map (fun t => ⟨t⟩))

/-- Python `" ".join(parts)` on character lists. -/
def joinL : List (List Char) → List Char
  | [] => []
  | [t] => t
  | t :: u :: rest => t ++ ' ' :: joinL (u :: rest)

/-- `CommandScoreboard._normalize` on the underlying characters:
shlex-tokenize (falling back to `command.strip().split()` on
`ValueError`), re-join with single spaces and trim; an empty result
falls back to the trimmed raw command. -/
def normalizeL (l : List Char) : List Char :=
  let parts : List (List Char) :=
    match shlexRun l .norm [] false [] with
    | .ok ps => ps
    | .error _ => pySplitL (pyStripL l)
  let normalized := pyStripL (joinL parts)
  if normalized = [] then pyStripL l else normalized

/-- `CommandScoreboard._normalize`. -/
def CommandScoreboard.normalize (command : String) : String :=
  ⟨normalizeL command.data⟩

/-- Characters on which `shlex.split` degenerates to plain whitespace
splitting: ASCII, not a quote or backslash, and any whitespace-like
character (in Python's wider sense) is one of the four `shlex`
whitespace characters.  On strings of such characters every tokenizer
involved in `_normalize` agrees. -/
def goodChar (c : Char) : Bool :=
  c.toNat < 128 ∧ ¬ (c = '\'' ∨ c = '"' ∨ c = '\\') ∧
    ((pyWS c ∨ c = '\x1c' ∨ c = '\x1d' ∨ c = '\x1e' ∨ c = '\x1f') → shlexWS c)

/-- Whitespace tokens in the `shlex` sense. -/
def wsTokens (l : List Char) : List (List Char) :=
  splitWS shlexWS l

/-- The scoreboard's stored dictionary, as an association list in
insertion order (`CommandScoreboard._scores`). -/
def Scoreboard := List (String × CommandStats)

/-- Dictionary lookup in `_scores`. -/
def sbLookup (sb : Scoreboard) (key : String) : Option CommandStats :=
  (List.find? (fun p => p.1 = key) sb).map (·.2)

/-- `self._scores.setdefault(key, CommandStats())` followed by
`stats.record(success)`: increment the entry in place, creating a
zero-initialised entry first when absent. -/
def sbRecordKey (sb : Scoreboard) (key : String) (success : Bool) : Scoreboard :=
  match sb with
  | [] => [(key, CommandStats.record {} success)]
  | (k, st) :: rest =>
    if k = key then (k, st.record success) :: rest
    else (k, st) :: sbRecordKey rest key success

/-- `CommandScoreboard.record` (its mutation; the function also returns a
copy of the updated totals, which `sbLookup` recovers). -/
def CommandScoreboard.record (sb : Scoreboard) (command : String) (success : Bool) :
    Scoreboard :=
  sbRecordKey sb (CommandScoreboard.normalize command) success

/-- Run a whole session of `record` calls, oldest first, from a given
scoreboard. -/
def sbRun (sb : Scoreboard) (ops : List (String × Bool)) : Scoreboard :=
  ops.foldl (fun sb op => CommandScoreboard.record sb op.1 op.2) sb

/-- Number of recorded operations in `ops` that normalize to `key` and
have the given success flag. -/
def countOps (ops : List (String × Bool)) (key : String) (success : Bool) : Nat :=
  (ops.filter (fun op => CommandScoreboard.normalize op.1 = key ∧ op.2 = success)).length

/-! ### safety.py : regular expressions

The rule patterns of `SafetyPolicy.default` use only a small regex
vocabulary: literal characters, the classes `\s`, `\w` and `[0-9a-z]`
(with `*`/`+` repetition on classes only), optional groups, alternation
of literal words, and the word boundary `\b`.  `Pat` is that vocabulary;
`psearch` decides `re.search` (existence of a match anywhere), which is
all `SafetyRule.matches` consumes. -/

/-- The character classes appearing in the default rule patterns.
`re.IGNORECASE` is handled by lowercasing the subject (all pattern
literals are already lowercase), so `[0-9a-z]` keeps its literal form. -/
inductive CharCls
  | ws
  | word
  | digitLower
  deriving Repr, DecidableEq

/-- Membership in a character class (`\s` = Python whitespace, `\w` =
word characters, `[0-9a-z]` on a lowercased subject). -/
def charIn : CharCls → Char → Bool
  | .ws, c => pyWS c
  | .word, c => c.isAlpha ∨ c.isDigit ∨ c = '_'
  | .digitLower, c => ('0' ≤ c ∧ c ≤ '9') ∨ ('a' ≤ c ∧ c ≤ 'z')

/-- Regex abstract syntax, shaped after the constructs in the default
patterns. -/
inductive Pat
  | eps
  | lit (c : Char)
  | cl (k : CharCls)
  | star (k : CharCls)
  | plus (k : CharCls)
  | opt (p : Pat)
  | alt (p q : Pat)
  | seq (p q : Pat)
  | wb
  deriving Repr, DecidableEq

/-- Is `\b` a word character (absent characters at the edges count as
non-word)? -/
def isWordOpt : Option Char → Bool
  | none => false
  | some c => charIn .word c

/-- All suffixes reachable by consuming zero or more characters of class
`k`, each paired with the character consumed last. -/
def starRun (k : CharCls) (prev : Option Char) (s : List Char) :
    List (Option Char × List Char) :=
  (prev, s) ::
    match s with
    | [] => []
    | c :: rest => if charIn k c then starRun k (some c) rest else []

/-- Nondeterministic matcher: all `(last consumed char, remaining input)`
states reachable by matching `p` at the start of `s`; `prev` is the
character just before `s` in the full subject (for `\b`). -/
def mrun : Pat → Option Char → List Char → List (Option Char × List Char)
  | .eps, prev, s => [(prev, s)]
  | .lit c, _, s =>
    match s with
    | [] => []
    | x :: xs => if x = c then [(some x, xs)] else []
  | .cl k, _, s =>
    match s with
    | [] => []
    | x :: xs => if charIn k x then [(some x, xs)] else []
  | .star k, prev, s => starRun k prev s
  | .plus k, _, s =>
    match s with
    | [] => []
    | x :: xs => if charIn k x then starRun k (some x) xs else []
  | .opt p, prev, s => (prev, s) :: mrun p prev s
  | .alt p q, prev, s => mrun p prev s ++ mrun q prev s
  | .seq p q, prev, s =>
    (mrun p prev s).flatMap (fun st => mrun q st.1 st.2)
  | .wb, prev, s =>
    if isWordOpt prev ≠ isWordOpt s.head? then [(prev, s)] else []

/-- Does `p` match starting exactly at the current position? -/
def matchHere (p : Pat) (prev : Option Char) (s : List Char) : Bool :=
  ¬ (mrun p prev s).isEmpty

/-- `re.search` (as a boolean): does `p` match starting at some
position? -/
def searchAux (p : Pat) (prev : Option Char) (s : List Char) : Bool :=
  matchHere p prev s ||
    match s with
    | [] => false
    | c :: rest => searchAux p (some c) rest

/-- `bool(compiled.search(command))` for a pattern compiled with
`re.IGNORECASE`: lowercase the subject (the pattern literals are
lowercase) and search anywhere. -/
def psearch (p : Pat) (s : String) : Bool :=
  searchAux p none (s.data.map Char.toLower)

/-- Literal word as a pattern. -/
def plit (w : String) : Pat :=
  w.data.foldr (fun c acc => Pat.seq (Pat.lit c) acc) Pat.eps

/-- Sequence of patterns. -/
def pseq (ps : List Pat) : Pat :=
  ps.foldr Pat.seq Pat.eps

/-- Alternation of a non-empty list of patterns. -/
def palts : List Pat → Pat
  | [] => Pat.eps
  | [p] => p
  | p :: q :: rest => Pat.alt p (palts (q :: rest))

/-! ### safety.py : rules, decisions and the policy -/

/-- `safety.SafetyDecision`. -/
structure SafetyDecision where
  level : String
  require_confirmation : Bool
  notes : Option String := none
  deriving Repr, DecidableEq

/-- `safety.SafetyRule`.  The `pattern` field holds the compiled form
(`self._compiled`, the only thing `matches` reads); `pattern_src` keeps
the source regex text for reference. -/
structure SafetyRule where
  pattern_src : String
  pattern : Pat
  level : String
  require_confirmation : Bool := false
  allowed_flags : Option (List String) := none
  description : Option String := none
  deriving Repr, DecidableEq

/-- `SafetyRule.matches`: case-insensitive `search` of the compiled
pattern anywhere in the command. -/
def SafetyRule.matches (r : SafetyRule) (command : String) : Bool :=
  psearch r.pattern command

/-- Python `needle in haystack` on strings (substring containment). -/
def strContains (haystack needle : List Char) : Bool :=
  match haystack with
  | [] => needle.isEmpty
  | _ :: rest => needle.isPrefixOf haystack || strContains rest needle

/-- Python truthiness of `self.allowed_flags` (`None` and `[]` are
falsy). -/
def flagsTruthy : Option (List String) → Bool
  | none => false
  | some fs => ¬ fs.isEmpty

/-- `SafetyRule.evaluate`: start from the rule's static confirmation
flag; when the rule declares allowed flags and the command contains none
of them, force confirmation and note the expected flags; append the
rule's description (when truthy); join notes with newlines, `None` when
empty. -/
def SafetyRule.evaluate (r : SafetyRule) (command : String) : SafetyDecision :=
  let missingFlags : Bool :=
    flagsTruthy r.allowed_flags &&
      ¬ (r.allowed_flags.getD []).any (fun flag => strContains command.data flag.data)
  let flagNotes : List String :=
    if missingFlags then
      ["Expected one of the following flags: " ++
        String.intercalate ", " (r.allowed_flags.getD [])]
    else []
  let require_confirmation := r.require_confirmation || missingFlags
  let notes :=
    flagNotes ++
      (match r.description with
       | some d => if d ≠ "" then [d] else []
       | none => [])
  { level := r.level,
    require_confirmation := require_confirmation,
    notes := if notes.isEmpty then none else some (String.intercalate "\n" notes) }

/-- `safety.SafetyPolicy` (the ordered rule list). -/
structure SafetyPolicy where
  rules : List SafetyRule

/-- `SafetyPolicy.default`, rule for rule in declaration order.  Each
`pattern` is the hand-compiled form of the regex text kept alongside it
in `pattern_src` (patterns are compiled with `re.IGNORECASE`; the
subject is lowercased by `psearch`, so the literal `-R` of the `chown`
rule compiles to lowercase `-r`). -/
def SafetyPolicy.default : SafetyPolicy :=
  ⟨[
    { pattern_src := "rm\\s+-rf\\s+/",
      pattern := pseq [plit "rm", .plus .ws, plit "-rf", .plus .ws, plit "/"],
      level := "high", require_confirmation := true },
    { pattern_src := ":\\(\\)\\s*\x7b",
      pattern := pseq [plit ":()", .star .ws, plit "\x7b"],
      level := "high", require_confirmation := true },
    { pattern_src := "\\bdd\\s+if=",
      pattern := pseq [.wb, plit "dd", .plus .ws, plit "if="],
      level := "high", require_confirmation := true },
    { pattern_src := "\\bmkfs\\.\\w*",
      pattern := pseq [.wb, plit "mkfs.", .star .word],
      level := "high", require_confirmation := true },
    { pattern_src := ">\\s*/dev/sd[0-9a-z]",
      pattern := pseq [plit ">", .star .ws, plit "/dev/sd", .cl .digitLower],
      level := "high", require_confirmation := true },
    { pattern_src := "\\bwipefs\\b",
      pattern := pseq [.wb, plit "wipefs", .wb],
      level := "high", require_confirmation := true },
    { pattern_src := "\\b(poweroff|shutdown|reboot|halt)\\b",
      pattern := pseq [.wb,
        palts [plit "poweroff", plit "shutdown", plit "reboot", plit "halt"], .wb],
      level := "high", require_confirmation := true },
    { pattern_src := "\\buserdel\\b",
      pattern := pseq [.wb, plit "userdel", .wb],
      level := "high", require_confirmation := true },
    { pattern_src := "\\bmkpart\\b",
      pattern := pseq [.wb, plit "mkpart", .wb],
      level := "high", require_confirmation := true },
    { pattern_src := "\\bsudo\\b",
      pattern := pseq [.wb, plit "sudo", .wb],
      level := "medium" },
    { pattern_src := "\\bapt(-get)?\\s+remove\\b",
      pattern := pseq [.wb, plit "apt", .opt (plit "-get"), .plus .ws, plit "remove", .wb],
      level := "medium" },
    { pattern_src := "\\bchown\\s+-R\\b",
      pattern := pseq [.wb, plit "chown", .plus .ws, plit "-r", .wb],
      level := "medium" },
    { pattern_src := "\\bchmod\\s+777\\b",
      pattern := pseq [.wb, plit "chmod", .plus .ws, plit "777", .wb],
      level := "medium" },
    { pattern_src := "\\bsystemctl\\s+(stop|restart)\\s+",
      pattern := pseq [.wb, plit "systemctl", .plus .ws,
        palts [plit "stop", plit "restart"], .plus .ws],
      level := "medium" },
    { pattern_src := "\\bkill\\s+-9\\b",
      pattern := pseq [.wb, plit "kill", .plus .ws, plit "-9", .wb],
      level := "medium" },
    { pattern_src := "\\bapt(-get)?\\s+install\\b",
      pattern := pseq [.wb, plit "apt", .opt (plit "-get"), .plus .ws, plit "install", .wb],
      level := "medium",
      allowed_flags := some ["-y"],
      description := some "Apt installs should include -y for non-interactive mode." }
  ]⟩

/-- `SafetyPolicy.evaluate`: trim; an empty command is `{low, False}`
without scanning; otherwise the first matching rule's `evaluate`, and
`{low, False}` when nothing matches. -/
def SafetyPolicy.evaluate (p : SafetyPolicy) (command : String) : SafetyDecision :=
  let normalized := pyStrip command
  if normalized = "" then { level := "low", require_confirmation := false }
  else
    match p.rules.find? (fun r => r.matches normalized) with
    | some r => r.evaluate normalized
    | none => { level := "low", require_confirmation := false }

/-! ### safety.py : `SafetyPolicy.load`

The file system and the two deserializers are modelled explicitly: a
candidate is described by whether the path exists, whether `read_text`
succeeds, whether its suffix selects the YAML branch, and what the
selected deserializer does with its text (a JSON-like value on success,
an exception on failure).  Exceptions that escape `load` — a JSON/YAML
decode error, or the deliberate `RuntimeError` when a YAML policy is
given without PyYAML — become the `Except.error` results. -/

/-- JSON-like values, as produced by `json.loads`/`yaml.safe_load`. -/
inductive Jsonish
  | null
  | bool (b : Bool)
  | num (n : Int)
  | str (s : String)
  | arr (elems : List Jsonish)
  | obj (fields : List (String × Jsonish))
  deriving Repr

/-- Python truthiness of a JSON value. -/
def jtruthy : Jsonish → Bool
  | .null => false
  | .bool b => b
  | .num n => ¬ n = 0
  | .str s => ¬ s = ""
  | .arr l => ¬ l.isEmpty
  | .obj f => ¬ f.isEmpty

/-- `mapping.get(key)` on a parsed JSON object. -/
def jget (fields : List (String × Jsonish)) (key : String) : Option Jsonish :=
  (fields.find? (fun p => p.1 = key)).map (·.2)

/-- Python `str(v)` for the scalar shapes `_rules_from_mapping` can feed
it; container values are rendered loosely (no theorem depends on those). -/
def pyStrOf : Jsonish → String
  | .null => "None"
  | .bool b => if b then "True" else "False"
  | .num n => toString n
  | .str s => s
  | .arr _ => "[...]"
  | .obj _ => "\x7b...\x7d"

/-- Exceptions that can escape `SafetyPolicy.load`. -/
inductive PyError
  | parseError
  | yamlMissing
  | attrError
  deriving Repr, DecidableEq

/-- A rule as `_rules_from_mapping` builds it (the dataclass fields
before regex compilation). -/
structure RawRule where
  pattern : String
  level : String
  require_confirmation : Bool
  allowed_flags : Option (List String)
  description : Option String
  deriving Repr, DecidableEq

/-- ASCII lowercase of a string (Python `str.lower` on the level names). -/
def asciiLower (s : String) : String :=
  ⟨s.data.map Char.toLower⟩

/-- `(item.get("level") or "low").lower()`: a falsy or missing level
falls back to `"low"`; a truthy non-string level would raise
`AttributeError` on `.lower()`. -/
def levelLower : Option Jsonish → Except PyError String
  | none => .ok "low"
  | some j =>
    if jtruthy j then
      match j with
      | .str s => .ok (asciiLower s)
      | _ => .error .attrError
    else .ok "low"

/-- One iteration of the rule loop of `_rules_from_mapping`: skip
non-dict items, skip items with a falsy pattern or an unknown level, and
normalize flags and description with Python truthiness. -/
def ruleOfItem (item : Jsonish) : Except PyError (Option RawRule) :=
  match item with
  | .obj f => do
    let patternV := jget f "pattern"
    let patternTruthy : Bool := match patternV with | some v => jtruthy v | none => false
    let level ← levelLower (jget f "level")
    if ¬ patternTruthy ∨ ¬ (level = "low" ∨ level = "medium" ∨ level = "high") then
      return none
    let require_confirmation :=
      match jget f "require_confirmation" with
      | some v => jtruthy v
      | none => false
    let allowed_flags :=
      match jget f "allowed_flags" with
      | some (.arr flags) =>
        if ¬ flags.isEmpty then some ((flags.filter jtruthy).map pyStrOf) else none
      | _ => none
    let description :=
      match jget f "description" with
      | some d => if jtruthy d then some (pyStrOf d) else none
      | none => none
    return some
      { pattern := pyStrOf (patternV.getD .null),
        level := level,
        require_confirmation := require_confirmation,
        allowed_flags := allowed_flags,
        description := description }
  | _ => .ok none

/-- `SafetyPolicy._rules_from_mapping`: an absent or non-list `rules`
field yields `[]`; otherwise each list item contributes at most one
rule. -/
def rules_from_mapping (mapping : List (String × Jsonish)) :
    Except PyError (List RawRule) :=
  match jget mapping "rules" with
  | some (.arr items) =>
    items.foldlM
      (fun acc item => do
        match (← ruleOfItem item) with
        | some r => return acc ++ [r]
        | none => return acc)
      []
  | _ => .ok []

/-- One candidate policy file, as `load` observes it. -/
structure PolicyFile where
  present : Bool
  readable : Bool
  isYaml : Bool
  parsed : Except Unit Jsonish

/-- `SafetyPolicy._read_policy_file`: an `OSError` while reading returns
`None`; a YAML suffix without PyYAML raises `RuntimeError`; a failing
deserializer raises; a non-dict payload returns `None`. -/
def read_policy_file (yamlAvailable : Bool) (f : PolicyFile) :
    Except PyError (Option (List (String × Jsonish))) :=
  if ¬ f.readable then .ok none
  else if f.isYaml ∧ ¬ yamlAvailable then .error .yamlMissing
  else
    match f.parsed with
    | .error _ => .error .parseError
    | .ok (.obj fields) => .ok (some fields)
    | .ok _ => .ok none

/-- The built-in default rules in their pre-compilation form (the same
sixteen rules as `SafetyPolicy.default`, keyed by pattern text). -/
def defaultRawRules : List RawRule :=
  SafetyPolicy.default.rules.map (fun r =>
    { pattern := r.pattern_src,
      level := r.level,
      require_confirmation := r.require_confirmation,
      allowed_flags := r.allowed_flags,
      description := r.description })

/-- `SafetyPolicy.load` over the resolved candidate list (explicit
override, then `AGENT_SAFETY_POLICY`, then `safety_policy.json`): skip
absent candidates, propagate exceptions from `_read_policy_file` and
`_rules_from_mapping`, skip falsy payloads and empty rule lists, and
fall back to the built-in defaults when no candidate yields rules. -/
def SafetyPolicy.load (yamlAvailable : Bool) : List PolicyFile →
    Except PyError (List RawRule)
  | [] => .ok defaultRawRules
  | f :: rest =>
    if ¬ f.present then SafetyPolicy.load yamlAvailable rest
    else
      match read_policy_file yamlAvailable f with
      | .error e => .error e
      | .ok none => SafetyPolicy.load yamlAvailable rest
      | .ok (some fields) =>
        if ¬ jtruthy (.obj fields) then SafetyPolicy.load yamlAvailable rest
        else
          match rules_from_mapping fields with
          | .error e => .error e
          | .ok [] => SafetyPolicy.load yamlAvailable rest
          | .ok rules => .ok rules

/-! ## Theorems -/

/-- C10: `SafetyRule.evaluate` preserves the rule's level, and a static
confirmation requirement is never cleared: the allowed-flags check can
only raise `require_confirmation` from false to true. -/
theorem rule_evaluate_preserves_level_and_confirmation :
    ∀ (r : SafetyRule) (c : String),
      (r.evaluate c).level = r.level ∧
      (r.require_confirmation = true → (r.evaluate c).require_confirmation = true) := by
  intro r c
  constructor
  · rfl
  · intro h
    simp [SafetyRule.evaluate, h]

/-- Witness for C10: a rule with a static confirmation requirement keeps
it (here on the default policy's `rm -rf` rule and a command that even
contains none of that rule's — absent — allowed flags). -/
theorem rule_evaluate_preserves_level_and_confirmation_witness :
    (SafetyRule.evaluate
      { pattern_src := "rm\\s+-rf\\s+/",
        pattern := pseq [plit "rm", .plus .ws, plit "-rf", .plus .ws, plit "/"],
        level := "high", require_confirmation := true } "rm -rf /").level = "high" ∧
    (SafetyRule.evaluate
      { pattern_src := "rm\\s+-rf\\s+/",
        pattern := pseq [plit "rm", .plus .ws, plit "-rf", .plus .ws, plit "/"],
        level := "high", require_confirmation := true } "rm -rf /").require_confirmation
      = true :=
  ⟨(rule_evaluate_preserves_level_and_confirmation _ "rm -rf /").1,
   (rule_evaluate_preserves_level_and_confirmation _ "rm -rf /").2 rfl⟩

/-- C2: a rule that declares allowed flags (and does not statically
require confirmation) forces confirmation exactly when the command
contains none of them; under the default policy, `apt-get install
nginx` (no `-y`) is medium risk with forced confirmation and a note
naming the missing flag, while `apt-get install -y nginx` is medium
risk without confirmation. -/
theorem default_policy_apt_install_flag_check :
    (∀ (r : SafetyRule) (c : String), r.require_confirmation = false →
      ((r.evaluate c).require_confirmation = true ↔
        (flagsTruthy r.allowed_flags &&
          ¬ (r.allowed_flags.getD []).any
            (fun flag => strContains c.data flag.data)) = true)) ∧
    SafetyPolicy.evaluate SafetyPolicy.default "apt-get install nginx" =
      { level := "medium", require_confirmation := true,
        notes := some ("Expected one of the following flags: -y\n" ++
          "Apt installs should include -y for non-interactive mode.") } ∧
    strContains
      ("Expected one of the following flags: -y\n" ++
        "Apt installs should include -y for non-interactive mode.").data
      "-y".data = true ∧
    SafetyPolicy.evaluate SafetyPolicy.default "apt-get install -y nginx" =
      { level := "medium", require_confirmation := false,
        notes := some "Apt installs should include -y for non-interactive mode." } := by
  refine ⟨?_, by decide, by decide, by decide⟩
  intro r c h
  simp [SafetyRule.evaluate, h]

/-- Witness for C2: the general allowed-flags law applied to the default
apt-install rule on the flagless command, whose decision indeed forces
confirmation. -/
theorem default_policy_apt_install_flag_check_witness :
    (SafetyRule.evaluate
      { pattern_src := "\\bapt(-get)?\\s+install\\b",
        pattern := pseq [.wb, plit "apt", .opt (plit "-get"), .plus .ws,
          plit "install", .wb],
        level := "medium",
        allowed_flags := some ["-y"],
        description := some "Apt installs should include -y for non-interactive mode." }
      "apt-get install nginx").require_confirmation = true :=
  (default_policy_apt_install_flag_check.1 _ "apt-get install nginx" rfl).mpr
    (by decide)

/-- C5 counterexample: a chat reply only reaches `determine_status`
through `planner_completed = True`, and with a non-empty history whose
last exit code is non-zero the derived status is `failed`, not
`completed` as the claim states. -/
theorem chat_reply_with_failing_history_is_failed :
    planner_completed_after_chat = true ∧
    determine_status [1] planner_completed_after_chat none false = "failed" ∧
    "failed" ≠ "completed" := by
  refine ⟨rfl, by decide, by decide⟩

/-- C5 (amended): the terminal status is derived by the chain
planner_error → cancelled (no history) → completed (planner done or chat
given, with a non-empty history ending in exit 0) → failed → cancelled →
completed (planner done or chat given with empty history) → incomplete →
no_action; so a chat reply yields `completed` only when the history is
empty or its last exit code is 0, and with a failing last command the
goal is `failed`. -/
theorem determine_status_order :
    (∀ (history : List Int) (pc : Bool) (pe : Option String) (uc : Bool),
      determine_status history pc pe uc = determine_status_chain history pc pe uc) ∧
    (∀ (history : List Int) (pe : Option String) (uc : Bool),
      history ≠ [] → history.getLast? ≠ some 0 → strOptTruthy pe = false →
      determine_status history true pe uc = "failed") := by
  constructor
  · intro history pc pe uc
    unfold determine_status determine_status_chain
    by_cases h1 : strOptTruthy pe = true
    · simp [h1]
    · simp only [h1, if_false]
      by_cases h2 : uc ∧ history = []
      · simp [h2]
      · simp only [h2, if_false]
        by_cases h3 : pc = true ∧ history ≠ [] ∧ history.getLast? = some 0
        · simp [h3]
        · simp only [h3, if_false]
          by_cases h4 : history ≠ [] ∧ history.getLast? ≠ some 0
          · simp [h4]
          · simp only [h4, if_false]
            by_cases h5 : uc
            · simp [h5]
            · simp only [h5, if_false]
              by_cases hpc : pc = true
              · by_cases hh : history = []
                · simp [hpc, hh]
                · exfalso
                  have hlast : history.getLast? = some 0 := by
                    by_contra hne
                    exact h4 ⟨hh, hne⟩
                  exact h3 ⟨hpc, hh, hlast⟩
              · simp [hpc]
  · intro history pe uc hne hlast hpe
    unfold determine_status
    have h1 : ¬ strOptTruthy pe = true := by simp [hpe]
    have h2 : ¬ (uc ∧ history = []) := fun h => hne h.2
    have h3 : ¬ (true = true ∧ history ≠ [] ∧ history.getLast? = some 0) :=
      fun h => hlast h.2.2
    simp [h1, h2, h3, hne, hlast]

/-- Witness for C5 (both parts at concrete inputs): the status function
agrees with the spec chain on a failing one-command history with a chat
reply, and that status is `failed`. -/
theorem determine_status_order_witness :
    determine_status [1] true none false = determine_status_chain [1] true none false ∧
    determine_status [1] true none false = "failed" :=
  ⟨determine_status_order.1 [1] true none false,
   determine_status_order.2 [1] none false (by decide) (by decide) (by decide)⟩

/-- If the first step with the given id is left unchanged by `f`,
`updateFirst` is the identity. -/
theorem updateFirst_eq_self (f : PlanStepState → PlanStepState) (sid : String) :
    ∀ (l : List PlanStepState) (st : PlanStepState),
      l.find? (fun s => s.id = sid) = some st → f st = st →
      updateFirst f sid l = l
  | [], st => by simp
  | a :: l, st => by
    intro hfind hfix
    by_cases ha : a.id = sid
    · rw [List.find?_cons_of_pos _ (by simpa using ha)] at hfind
      cases hfind
      simp [updateFirst, ha, hfix]
    · rw [List.find?_cons_of_neg _ (by simpa using ha)] at hfind
      simp [updateFirst, ha, updateFirst_eq_self f sid l st hfind hfix]

/-- Looking up an id after `updateFirst` on that id applies `f` to the
found step, provided `f` does not change ids. -/
theorem find?_updateFirst (f : PlanStepState → PlanStepState) (sid : String)
    (hid : ∀ s, (f s).id = s.id) :
    ∀ l : List PlanStepState,
      List.find? (fun s => s.id = sid) (updateFirst f sid l) =
        (List.find? (fun s => s.id = sid) l).map f
  | [] => by simp [updateFirst]
  | a :: l => by
    by_cases ha : a.id = sid
    · rw [List.find?_cons_of_pos _ (by simpa using ha)]
      simp only [updateFirst, if_pos ha]
      rw [List.find?_cons_of_pos _ (by simpa using (hid a).trans ha)]
      rfl
    · rw [List.find?_cons_of_neg _ (by simpa using ha)]
      simp only [updateFirst, if_neg ha]
      rw [List.find?_cons_of_neg _ (by simpa using ha)]
      exact find?_updateFirst f sid hid l

/-- C6 counterexample: `record_result` with `success = False` flips an
already-completed step to `failed`, so the claimed invariance of
completed steps does not hold for `record_result`. -/
theorem record_result_overwrites_completed_step :
    (((PlanState.record_result
        ⟨none, [⟨"s1", none, none, none, "completed", []⟩]⟩
        "s1" false none).get_step "s1").map (fun s => s.status)) = some "failed" ∧
    some "failed" ≠ some "completed" := by
  refine ⟨by decide, by decide⟩

/-- C6 (amended): `mark_running` never changes a completed step (nor the
rest of the plan), and `record_result` on a completed step sets its
status to `completed` when `success` is true but overwrites it to
`failed` when `success` is false. -/
theorem completed_step_transitions :
    ∀ (ps : PlanState) (sid : String) (success : Bool) (idx : Option Int)
      (st : PlanStepState),
      ps.get_step sid = some st → st.status = "completed" →
      ps.mark_running sid = ps ∧
      ((ps.record_result sid success idx).get_step sid).map (fun s => s.status) =
        some (if success then "completed" else "failed") := by
  intro ps sid success idx st hfind hst
  constructor
  · show PlanState.mk ps.summary _ = ps
    rw [updateFirst_eq_self _ sid ps.steps st hfind (by simp [hst])]
  · show (List.find? _ (updateFirst _ sid ps.steps)).map _ = _
    rw [find?_updateFirst]
    · rw [show ps.steps.find? (fun s => s.id = sid) = some st from hfind]
      rfl
    · intro s
      rfl

/-- Witness for C6: on a one-step completed plan, `mark_running` is the
identity and a successful `record_result` keeps the step completed. -/
theorem completed_step_transitions_witness :
    PlanState.mark_running ⟨none, [⟨"s1", none, none, none, "completed", []⟩]⟩ "s1" =
      ⟨none, [⟨"s1", none, none, none, "completed", []⟩]⟩ ∧
    ((PlanState.record_result ⟨none, [⟨"s1", none, none, none, "completed", []⟩]⟩
        "s1" true (some 3)).get_step "s1").map (fun s => s.status) =
      some "completed" := by
  have h := completed_step_transitions
    ⟨none, [⟨"s1", none, none, none, "completed", []⟩]⟩ "s1" true (some 3)
    ⟨"s1", none, none, none, "completed", []⟩ (by decide) rfl
  exact ⟨h.1, h.2⟩

/-- C4: the repeated-failure guard is false for histories shorter than
two turns; false whenever one of the two most recent turns exited 0
(even for identical command texts); and true only when both most recent
turns failed and candidate and both executed commands share one
whitespace-normalized text. -/
theorem is_repeated_failure_spec :
    ∀ (candidate : Option String) (history : List PlannerTurn),
      (history.length < 2 → is_repeated_failure candidate history = false) ∧
      (∀ last prev rest, history.reverse = last :: prev :: rest →
        last.exit_code = 0 ∨ prev.exit_code = 0 →
        is_repeated_failure candidate history = false) ∧
      (is_repeated_failure candidate history = true →
        ∃ last prev rest, history.reverse = last :: prev :: rest ∧
          last.exit_code ≠ 0 ∧ prev.exit_code ≠ 0 ∧
          ∃ nc, normalize_command_text candidate = some nc ∧
            normalize_command_text (some last.executed_command) = some nc ∧
            normalize_command_text (some prev.executed_command) = some nc) := by
  intro candidate history
  refine ⟨fun hlen => by simp [is_repeated_failure, hlen], ?_, ?_⟩
  · intro last prev rest hrev hzero
    by_cases hc : history.length < 2 ∨ strOptFalsy candidate = true
    · simp [is_repeated_failure, hc]
    · simp only [is_repeated_failure, hc, if_false, hrev]
      simp [hzero]
  · intro htrue
    by_cases hc : history.length < 2 ∨ strOptFalsy candidate = true
    · simp [is_repeated_failure, hc] at htrue
    · simp only [is_repeated_failure, hc, if_false] at htrue
      rcases hrev : history.reverse with _ | ⟨last, _ | ⟨prev, rest⟩⟩
      · rw [hrev] at htrue
        simp at htrue
      · rw [hrev] at htrue
        simp at htrue
      · rw [hrev] at htrue
        replace htrue :
            (if last.exit_code = 0 ∨ prev.exit_code = 0 then false
             else
               match normalize_command_text candidate with
               | none => false
               | some nc =>
                 match normalize_command_text (some last.executed_command),
                   normalize_command_text (some prev.executed_command) with
                 | some le, some pe => decide (nc = le) && decide (le = pe)
                 | _, _ => false) = true := htrue
        refine ⟨last, prev, rest, rfl, ?_⟩
        by_cases hzero : last.exit_code = 0 ∨ prev.exit_code = 0
        · simp [hzero] at htrue
        · rw [if_neg hzero] at htrue
          push_neg at hzero
          refine ⟨hzero.1, hzero.2, ?_⟩
          rcases hnc : normalize_command_text candidate with _ | nc
          · rw [hnc] at htrue
            simp at htrue
          · rw [hnc] at htrue
            rcases hle : normalize_command_text (some last.executed_command) with _ | le
            · rw [hle] at htrue
              simp at htrue
            · rcases hpe : normalize_command_text (some prev.executed_command) with _ | pe
              · rw [hle, hpe] at htrue
                simp at htrue
              · rw [hle, hpe] at htrue
                simp only [Bool.and_eq_true, decide_eq_true_eq] at htrue
                exact ⟨nc, rfl, congrArg some htrue.1.symm,
                  congrArg some (htrue.1.trans htrue.2).symm⟩

/-- Witness for C4 at concrete inputs: a one-turn history is not a
repeated failure; two identical failing executions with a successful
most-recent turn are not; and a genuine double failure on
`flaky-script.sh` satisfies all the conditions of the third part. -/
theorem is_repeated_failure_spec_witness :
    is_repeated_failure (some "flaky-script.sh")
      [⟨"flaky-script.sh", "flaky-script.sh", 1⟩] = false ∧
    is_repeated_failure (some "flaky-script.sh")
      [⟨"flaky-script.sh", "flaky-script.sh", 1⟩,
       ⟨"flaky-script.sh", "flaky-script.sh", 0⟩] = false ∧
    (∃ last prev rest,
      ([⟨"flaky-script.sh", "flaky-script.sh", 1⟩,
        ⟨"flaky-script.sh", "flaky-script.sh", 1⟩] :
          List PlannerTurn).reverse = last :: prev :: rest ∧
      last.exit_code ≠ 0 ∧ prev.exit_code ≠ 0 ∧
      ∃ nc, normalize_command_text (some "flaky-script.sh") = some nc ∧
        normalize_command_text (some last.executed_command) = some nc ∧
        normalize_command_text (some prev.executed_command) = some nc) :=
  ⟨(is_repeated_failure_spec (some "flaky-script.sh") _).1 (by decide),
   (is_repeated_failure_spec (some "flaky-script.sh") _).2.1
     ⟨"flaky-script.sh", "flaky-script.sh", 0⟩
     ⟨"flaky-script.sh", "flaky-script.sh", 1⟩ [] (by decide) (by decide),
   (is_repeated_failure_spec (some "flaky-script.sh") _).2.2 (by decide)⟩

/-- A successful `find?` splits its list at the first hit. -/
theorem find?_split {α : Type} (p : α → Bool) :
    ∀ (l : List α) (x : α), l.find? p = some x →
      p x = true ∧ ∃ l1 l2, l = l1 ++ x :: l2 ∧ ∀ y ∈ l1, p y = false
  | [], x => by simp
  | a :: l, x => by
    intro h
    by_cases ha : p a
    · rw [List.find?_cons_of_pos _ ha] at h
      cases h
      exact ⟨ha, [], l, rfl, by simp⟩
    · rw [List.find?_cons_of_neg _ ha] at h
      obtain ⟨hpx, l1, l2, rfl, hl1⟩ := find?_split p l x h
      refine ⟨hpx, a :: l1, l2, rfl, ?_⟩
      intro y hy
      rcases List.mem_cons.mp hy with rfl | hy
      · simpa using ha
      · exact hl1 y hy

/-- After `updateFirst` with a completing function, every step of a list
whose only possibly-incomplete steps carry the updated id (present at
most once) is completed. -/
theorem updateFirst_all_completed (f : PlanStepState → PlanStepState) (sid : String)
    (hf : ∀ s, (f s).status = "completed") :
    ∀ l : List PlanStepState,
      (∀ s ∈ l, s.id ≠ sid → s.status = "completed") →
      (l.filter (fun s => s.id = sid)).length ≤ 1 →
      ∀ s ∈ updateFirst f sid l, s.status = "completed"
  | [] => by simp [updateFirst]
  | a :: l => by
    intro hall hcount s hs
    by_cases ha : a.id = sid
    · rw [show updateFirst f sid (a :: l) = f a :: l by simp [updateFirst, ha]] at hs
      rcases List.mem_cons.mp hs with rfl | hs
      · exact hf a
      · by_cases hsid : s.id = sid
        · exfalso
          have hmem : s ∈ l.filter (fun s => s.id = sid) :=
            List.mem_filter.mpr ⟨hs, by simpa using hsid⟩
          have : (List.filter (fun s => s.id = sid) (a :: l)).length ≥ 2 := by
            rw [List.filter_cons_of_pos (by simpa using ha)]
            have := List.length_pos.mpr (List.ne_nil_of_mem hmem)
            simpa using this
          omega
        · exact hall s (List.mem_cons_of_mem a hs) hsid
    · rw [show updateFirst f sid (a :: l) = a :: updateFirst f sid l by
        simp [updateFirst, ha]] at hs
      rcases List.mem_cons.mp hs with rfl | hs
      · exact hall s (List.mem_cons_self _ _) ha
      · refine updateFirst_all_completed f sid hf l ?_ ?_ s hs
        · exact fun s hsl => hall s (List.mem_cons_of_mem a hsl)
        · rw [List.filter_cons_of_neg (by simpa using ha)] at hcount
          exact hcount

/-- C7: `current_step` is `none` exactly when every step is completed;
otherwise it is the first step (in order) whose status is not
`completed` — a `failed` or `in_progress` step is still returned — and
completing the only step that may be non-completed (by a successful
`record_result` on its unique id) makes a subsequent call return
`none`. -/
theorem current_step_spec :
    ∀ ps : PlanState,
      (ps.current_step = none ↔ ∀ s ∈ ps.steps, s.status = "completed") ∧
      (∀ st, ps.current_step = some st →
        st.status ≠ "completed" ∧
        ∃ pre post, ps.steps = pre ++ st :: post ∧ ∀ s ∈ pre, s.status = "completed") ∧
      (∀ (sid : String) (idx : Option Int),
        (∀ s ∈ ps.steps, s.id ≠ sid → s.status = "completed") →
        (ps.steps.filter (fun s => s.id = sid)).length ≤ 1 →
        (ps.record_result sid true idx).current_step = none) := by
  intro ps
  refine ⟨?_, ?_, ?_⟩
  · simp [PlanState.current_step, List.find?_eq_none]
  · intro st hfind
    obtain ⟨hp, pre, post, heq, hpre⟩ :=
      find?_split _ ps.steps st (show List.find? _ ps.steps = some st from hfind)
    refine ⟨by simpa using hp, pre, post, heq, ?_⟩
    intro s hs
    simpa using hpre s hs
  · intro sid idx hall hcount
    show List.find? _ _ = none
    apply List.find?_eq_none.mpr
    intro x hx
    have hcompleted :=
      updateFirst_all_completed _ sid (fun s => rfl) ps.steps hall hcount x hx
    simp [hcompleted]

/-- Witness for C7 on the concrete plan `[s1 completed, s2 failed]`:
`current_step` returns the failed step `s2` with the completed prefix
`[s1]`, and a successful `record_result` on `s2` empties the plan. -/
theorem current_step_spec_witness :
    ((⟨"s2", none, none, none, "failed", []⟩ : PlanStepState).status ≠ "completed" ∧
      ∃ pre post,
        [(⟨"s1", none, none, none, "completed", []⟩ : PlanStepState),
         ⟨"s2", none, none, none, "failed", []⟩] =
          pre ++ (⟨"s2", none, none, none, "failed", []⟩ : PlanStepState) :: post ∧
        ∀ s ∈ pre, s.status = "completed") ∧
    (PlanState.record_result
      ⟨none, [⟨"s1", none, none, none, "completed", []⟩,
              ⟨"s2", none, none, none, "failed", []⟩]⟩ "s2" true none).current_step =
      none :=
  ⟨(current_step_spec
      ⟨none, [⟨"s1", none, none, none, "completed", []⟩,
              ⟨"s2", none, none, none, "failed", []⟩]⟩).2.1
      ⟨"s2", none, none, none, "failed", []⟩ (by decide),
   (current_step_spec
      ⟨none, [⟨"s1", none, none, none, "completed", []⟩,
              ⟨"s2", none, none, none, "failed", []⟩]⟩).2.2 "s2" none
      (by decide) (by decide)⟩

/-- Head hit for scoreboard lookup. -/
theorem sbLookup_cons_eq (k' : String) (st : CommandStats) (rest : Scoreboard) :
    sbLookup ((k', st) :: rest) k' = some st := by
  unfold sbLookup
  rw [List.find?_cons_of_pos _ (by simp)]
  rfl

/-- Head miss for scoreboard lookup. -/
theorem sbLookup_cons_ne (k' : String) (st : CommandStats) (rest : Scoreboard)
    (key : String) (h : ¬ k' = key) :
    sbLookup ((k', st) :: rest) key = sbLookup rest key := by
  unfold sbLookup
  rw [List.find?_cons_of_neg _ (by simpa using h)]

/-- Recording under one key updates exactly that key's stats
(zero-initialising an absent entry) and leaves every other key
unchanged. -/
theorem sbLookup_recordKey :
    ∀ (sb : Scoreboard) (k : String) (b : Bool) (key : String),
      sbLookup (sbRecordKey sb k b) key =
        if key = k then some (((sbLookup sb k).getD {}).record b)
        else sbLookup sb key
  | [], k, b, key => by
    show sbLookup [(k, CommandStats.record {} b)] key = _
    by_cases h : key = k
    · subst h
      rw [sbLookup_cons_eq, if_pos rfl]
      rfl
    · rw [sbLookup_cons_ne _ _ _ _ (fun h2 => h h2.symm), if_neg h]
  | (k', st) :: rest, k, b, key => by
    by_cases hk : k' = k
    · subst hk
      rw [show sbRecordKey ((k', st) :: rest) k' b = (k', st.record b) :: rest by
        simp [sbRecordKey]]
      by_cases h : key = k'
      · subst h
        rw [sbLookup_cons_eq, if_pos rfl, sbLookup_cons_eq]
        rfl
      · rw [sbLookup_cons_ne _ _ _ _ (fun h2 => h h2.symm), if_neg h,
          sbLookup_cons_ne _ _ _ _ (fun h2 => h h2.symm)]
    · rw [show sbRecordKey ((k', st) :: rest) k b = (k', st) :: sbRecordKey rest k b by
        simp [sbRecordKey, hk]]
      by_cases h : key = k'
      · subst h
        rw [sbLookup_cons_eq, if_neg (fun h2 => hk h2), sbLookup_cons_eq]
      · rw [sbLookup_cons_ne _ _ _ _ (fun h2 => h h2.symm)]
        rw [sbLookup_recordKey rest k b key]
        by_cases hkk : key = k
        · rw [if_pos hkk, if_pos hkk, sbLookup_cons_ne k' st rest k hk]
        · rw [if_neg hkk, if_neg hkk,
            sbLookup_cons_ne _ _ _ _ (fun h2 => h h2.symm)]

/-- Splitting one operation off a session's head splits the per-key
tallies. -/
theorem countOps_cons (c : String) (b : Bool) (ops : List (String × Bool))
    (key : String) (tb : Bool) :
    countOps ((c, b) :: ops) key tb =
      (if CommandScoreboard.normalize c = key ∧ b = tb then 1 else 0) +
        countOps ops key tb := by
  by_cases h : CommandScoreboard.normalize c = key ∧ b = tb
  · simp [countOps, List.filter_cons, h, Nat.add_comm]
  · simp [countOps, List.filter_cons, h]

/-- Running a session on any starting scoreboard adds the session's
per-key tallies to the stored entry (creating it when both tallies are
non-zero). -/
theorem sbRun_lookup :
    ∀ (ops : List (String × Bool)) (sb : Scoreboard) (key : String),
      sbLookup (sbRun sb ops) key =
        match sbLookup sb key with
        | some st => some ⟨st.successes + countOps ops key true,
                           st.failures + countOps ops key false⟩
        | none =>
          if countOps ops key true = 0 ∧ countOps ops key false = 0 then none
          else some ⟨countOps ops key true, countOps ops key false⟩
  | [], sb, key => by
    cases h : sbLookup sb key with
    | none => simp [sbRun, countOps, h]
    | some st => simp [sbRun, countOps, h]
  | (c, b) :: ops, sb, key => by
    have hrun : sbRun sb ((c, b) :: ops) =
        sbRun (CommandScoreboard.record sb c b) ops := rfl
    rw [hrun, sbRun_lookup ops (CommandScoreboard.record sb c b) key]
    rw [show CommandScoreboard.record sb c b =
        sbRecordKey sb (CommandScoreboard.normalize c) b from rfl]
    rw [sbLookup_recordKey sb (CommandScoreboard.normalize c) b key]
    by_cases hkey : key = CommandScoreboard.normalize c
    · rw [if_pos hkey]
      rw [countOps_cons, countOps_cons]
      cases hsb : sbLookup sb key with
      | none =>
        rw [hkey] at hsb
        rw [hsb]
        cases b <;>
          simp [CommandStats.record, hkey.symm]
      | some st =>
        rw [hkey] at hsb
        rw [hsb]
        cases b <;>
          simp [CommandStats.record, hkey.symm] <;> omega
    · rw [if_neg hkey]
      rw [countOps_cons, countOps_cons]
      have hne : ¬ (CommandScoreboard.normalize c = key ∧ b = true) :=
        fun h => hkey h.1.symm
      have hne2 : ¬ (CommandScoreboard.normalize c = key ∧ b = false) :=
        fun h => hkey h.1.symm
      simp [hne, hne2]

/-- C8: the scoreboard is monotonic: an interleaved session holding `n`
successes and `m` failures for commands normalizing to `key` leaves the
stored stats at exactly `n` successes and `m` failures, with score
`n - m`, independent of interleaving. -/
theorem scoreboard_record_monotonic :
    ∀ (ops : List (String × Bool)) (key : String),
      sbLookup (sbRun [] ops) key =
        (if countOps ops key true = 0 ∧ countOps ops key false = 0 then none
         else some ⟨countOps ops key true, countOps ops key false⟩) ∧
      CommandStats.score ⟨countOps ops key true, countOps ops key false⟩ =
        (countOps ops key true : Int) - (countOps ops key false : Int) := by
  intro ops key
  refine ⟨?_, rfl⟩
  have h := sbRun_lookup ops [] key
  have hempty : sbLookup ([] : Scoreboard) key = none := rfl
  rw [hempty] at h
  exact h

/-- `find?` returns the head of the suffix after a miss-only prefix. -/
theorem find?_append_first {α : Type} (p : α → Bool) :
    ∀ (l1 : List α) (x : α) (l2 : List α),
      (∀ y ∈ l1, p y = false) → p x = true →
      List.find? p (l1 ++ x :: l2) = some x
  | [], x, l2 => by
    intro _ hx
    simpa using List.find?_cons_of_pos l2 hx
  | a :: l1, x, l2 => by
    intro hl1 hx
    rw [List.cons_append, List.find?_cons_of_neg _ (by
      simp [hl1 a (List.mem_cons_self a l1)])]
    exact find?_append_first p l1 x l2
      (fun y hy => hl1 y (List.mem_cons_of_mem a hy)) hx

/-- C1: rule evaluation is first-match-wins: whenever the rules split
into a non-matching prefix, a matching rule `r` and any suffix, the
policy's decision on a non-blank command is exactly `r`'s — later rules
are never consulted.  Under the built-in defaults,
`sudo apt-get install nginx` is decided by the tenth rule (`sudo`,
index 9) even though the install rule (index 15) also matches, giving
level `medium` without confirmation. -/
theorem policy_evaluate_first_match :
    (∀ (p : SafetyPolicy) (command : String) (pre post : List SafetyRule)
        (r : SafetyRule),
      p.rules = pre ++ r :: post →
      pyStrip command ≠ "" →
      (∀ r' ∈ pre, r'.matches (pyStrip command) = false) →
      r.matches (pyStrip command) = true →
      p.evaluate command = r.evaluate (pyStrip command)) ∧
    (∀ r' ∈ SafetyPolicy.default.rules.take 9,
      r'.matches "sudo apt-get install nginx" = false) ∧
    (SafetyPolicy.default.rules[9]?).map
      (fun r => r.matches "sudo apt-get install nginx") = some true ∧
    (SafetyPolicy.default.rules[15]?).map
      (fun r => r.matches "sudo apt-get install nginx") = some true ∧
    SafetyPolicy.evaluate SafetyPolicy.default "sudo apt-get install nginx" =
      { level := "medium", require_confirmation := false, notes := none } := by
  refine ⟨?_, by decide, by decide, by decide, by decide⟩
  intro p command pre post r hrules hne hpre hr
  unfold SafetyPolicy.evaluate
  rw [if_neg (by simpa using hne), hrules,
    find?_append_first _ pre r post (fun y hy => by simpa using hpre y hy)
      (by simpa using hr)]

/-- Witness for C1: the general first-match theorem applied to the
default policy, the `sudo` rule (prefix of nine non-matching rules) and
the command `sudo apt-get install nginx`. -/
theorem policy_evaluate_first_match_witness :
    SafetyPolicy.evaluate SafetyPolicy.default "sudo apt-get install nginx" =
      SafetyRule.evaluate
        { pattern_src := "\\bsudo\\b", pattern := pseq [.wb, plit "sudo", .wb],
          level := "medium" }
        (pyStrip "sudo apt-get install nginx") :=
  policy_evaluate_first_match.1 SafetyPolicy.default "sudo apt-get install nginx"
    (SafetyPolicy.default.rules.take 9) (SafetyPolicy.default.rules.drop 10)
    { pattern_src := "\\bsudo\\b", pattern := pseq [.wb, plit "sudo", .wb],
      level := "medium" }
    (by decide) (by decide) (by decide) (by decide)

/-- C3 counterexample: a present, readable JSON candidate whose content
fails to parse makes `load` raise the decode error (the `try` in
`_read_policy_file` only catches `OSError`), instead of falling through
to the next candidate or the built-in default rule set. -/
theorem load_raises_on_malformed_json :
    SafetyPolicy.load true
      [{ present := true, readable := true, isYaml := false,
         parsed := .error () }] = .error .parseError ∧
    (Except.error PyError.parseError : Except PyError (List RawRule)) ≠
      .ok defaultRawRules := by
  refine ⟨rfl, by simp⟩

/-- C3 (amended): `load` falls through to the next candidate for an
absent path, an unreadable file (`OSError`), a payload that parses to a
non-dict or falsy value, or a parsed rule list that is empty or wholly
invalid, and reaches the built-in defaults when no candidate remains;
but a present readable candidate whose content fails to parse raises —
the JSON/YAML decode error propagates, and a YAML suffix without the
YAML library raises `RuntimeError` — instead of falling through. -/
theorem load_fallthrough_amended :
    (∀ (yA : Bool) (f : PolicyFile) (rest : List PolicyFile),
      f.present = false →
      SafetyPolicy.load yA (f :: rest) = SafetyPolicy.load yA rest) ∧
    (∀ (yA : Bool) (f : PolicyFile) (rest : List PolicyFile),
      f.present = true → f.readable = false →
      SafetyPolicy.load yA (f :: rest) = SafetyPolicy.load yA rest) ∧
    (∀ (yA : Bool) (f : PolicyFile) (rest : List PolicyFile) (v : Jsonish),
      f.present = true → f.readable = true →
      ¬ (f.isYaml = true ∧ yA = false) → f.parsed = .ok v →
      (∀ fields, v ≠ .obj fields) →
      SafetyPolicy.load yA (f :: rest) = SafetyPolicy.load yA rest) ∧
    (∀ (yA : Bool) (f : PolicyFile) (rest : List PolicyFile)
        (fields : List (String × Jsonish)),
      f.present = true → f.readable = true →
      ¬ (f.isYaml = true ∧ yA = false) → f.parsed = .ok (.obj fields) →
      rules_from_mapping fields = .ok [] →
      SafetyPolicy.load yA (f :: rest) = SafetyPolicy.load yA rest) ∧
    (∀ (yA : Bool) (f : PolicyFile) (rest : List PolicyFile) (e : Unit),
      f.present = true → f.readable = true → f.isYaml = false →
      f.parsed = .error e →
      SafetyPolicy.load yA (f :: rest) = .error .parseError) ∧
    (∀ (f : PolicyFile) (rest : List PolicyFile),
      f.present = true → f.readable = true → f.isYaml = true →
      SafetyPolicy.load false (f :: rest) = .error .yamlMissing) ∧
    (∀ yA : Bool, SafetyPolicy.load yA [] = .ok defaultRawRules) := by
  refine ⟨?_, ?_, ?_, ?_, ?_, ?_, fun _ => rfl⟩
  · intro yA f rest hp
    simp [SafetyPolicy.load, hp]
  · intro yA f rest hp hr
    simp [SafetyPolicy.load, hp, read_policy_file, hr]
  · intro yA f rest v hp hr hy hparsed hnotobj
    simp only [SafetyPolicy.load, hp, Bool.not_true, Bool.false_eq_true,
      not_false_eq_true, if_false]
    rw [show read_policy_file yA f = .ok none by
      simp only [read_policy_file, hr]
      rw [if_neg (by simp), if_neg (by simpa using hy), hparsed]
      cases v with
      | obj fields => exact absurd rfl (hnotobj fields)
      | null => rfl
      | bool b => rfl
      | num n => rfl
      | str s => rfl
      | arr l => rfl]
    simp
  · intro yA f rest fields hp hr hy hparsed hrules
    simp only [SafetyPolicy.load, hp, Bool.not_true, Bool.false_eq_true,
      not_false_eq_true, if_false]
    rw [show read_policy_file yA f = .ok (some fields) by
      simp only [read_policy_file, hr]
      rw [if_neg (by simp), if_neg (by simpa using hy), hparsed]]
    by_cases hfe : jtruthy (.obj fields) = true
    · simp [hfe, hrules]
    · simp only [Bool.not_eq_true] at hfe
      simp [hfe]
  · intro yA f rest e hp hr hyaml hparsed
    simp only [SafetyPolicy.load, hp, Bool.not_true, Bool.false_eq_true,
      not_false_eq_true, if_false]
    rw [show read_policy_file yA f = .error .parseError by
      simp only [read_policy_file, hr]
      rw [if_neg (by simp), if_neg (by simp [hyaml]), hparsed]]
    simp
  · intro f rest hp hr hyaml
    simp only [SafetyPolicy.load, hp, Bool.not_true, Bool.false_eq_true,
      not_false_eq_true, if_false]
    rw [show read_policy_file false f = .error .yamlMissing by
      simp only [read_policy_file, hr]
      rw [if_neg (by simp), if_pos (by simp [hyaml])]]
    simp

/-- Witness for C3: a chain of an absent path, an unreadable file, a
non-dict JSON payload and an empty rule list falls through to the
built-in defaults, while a YAML candidate without PyYAML raises. -/
theorem load_fallthrough_amended_witness :
    SafetyPolicy.load true
      [{ present := false, readable := true, isYaml := false, parsed := .ok .null },
       { present := true, readable := false, isYaml := false, parsed := .ok .null },
       { present := true, readable := true, isYaml := false,
         parsed := .ok (.str "not a mapping") },
       { present := true, readable := true, isYaml := false,
         parsed := .ok (.obj [("rules", .arr [])]) }] = .ok defaultRawRules ∧
    SafetyPolicy.load false
      [{ present := true, readable := true, isYaml := true,
         parsed := .ok .null }] = .error .yamlMissing :=
  ⟨(load_fallthrough_amended.1 true _ _ rfl).trans
    ((load_fallthrough_amended.2.1 true _ _ rfl rfl).trans
      ((load_fallthrough_amended.2.2.1 true _ _ (.str "not a mapping") rfl rfl
          (by simp) rfl (fun fields h => Jsonish.noConfusion h)).trans
        ((load_fallthrough_amended.2.2.2.1 true _ _ [("rules", .arr [])] rfl rfl
            (by simp) rfl rfl).trans
          (load_fallthrough_amended.2.2.2.2.2.2 true)))),
   load_fallthrough_amended.2.2.2.2.2.1 _ _ rfl rfl rfl⟩

/-- `shlex` whitespace is Python whitespace. -/
theorem shlexWS_pyWS {c : Char} (h : shlexWS c = true) : pyWS c = true := by
  simp only [shlexWS, decide_eq_true_eq] at h
  rcases h with h | h | h | h <;> simp [pyWS, h]

/-- On good characters, Python whitespace is `shlex` whitespace. -/
theorem goodChar_pyWS {c : Char} (hg : goodChar c = true) (h : pyWS c = true) :
    shlexWS c = true := by
  simp only [goodChar, Bool.and_eq_true, decide_eq_true_eq] at hg
  exact hg.2.2 (Or.inl h)

/-- Good characters are not quotes or backslashes. -/
theorem goodChar_not_special {c : Char} (hg : goodChar c = true) :
    ¬ (c = '\'' ∨ c = '"' ∨ c = '\\') := by
  simp only [goodChar, Bool.and_eq_true, decide_eq_true_eq] at hg
  exact hg.2.1

/-- A split started on a non-empty token is non-empty. -/
theorem splitWSAux_ne_nil (ws : Char → Bool) :
    ∀ (l : List Char) (cur : List Char), cur ≠ [] →
      splitWSAux ws cur l ≠ []
  | [], cur => by
    intro h
    simp [splitWSAux, h]
  | c :: rest, cur => by
    intro h
    by_cases hc : ws c
    · simp [splitWSAux, hc, h]
    · simp only [splitWSAux, if_neg hc]
      exact splitWSAux_ne_nil ws rest (cur ++ [c]) (by simp)

/-- An empty split means the input was all whitespace. -/
theorem splitWSAux_eq_nil (ws : Char → Bool) :
    ∀ l : List Char, splitWSAux ws [] l = [] → l.all ws = true
  | [] => by simp
  | c :: rest => by
    intro h
    by_cases hc : ws c
    · simp only [splitWSAux, if_pos hc, if_pos rfl] at h
      simp [hc, splitWSAux_eq_nil ws rest h]
    · simp only [splitWSAux, if_neg hc] at h
      exact absurd h (splitWSAux_ne_nil ws rest [c] (by simp))

/-- Every token produced by the splitter is non-empty and consists of
non-whitespace characters satisfying any property `P` that holds on the
input. -/
theorem splitWSAux_tokens (ws P : Char → Bool) :
    ∀ (l : List Char) (cur : List Char),
      l.all P = true → cur.all P = true →
      cur.all (fun c => ¬ ws c) = true →
      ∀ t ∈ splitWSAux ws cur l,
        t ≠ [] ∧ t.all P = true ∧ t.all (fun c => ¬ ws c) = true
  | [], cur => by
    intro _ hcurP hcurW t ht
    by_cases h : cur = []
    · simp [splitWSAux, h] at ht
    · simp only [splitWSAux, if_neg h, List.mem_singleton] at ht
      exact ht ▸ ⟨h, hcurP, hcurW⟩
  | c :: rest, cur => by
    intro hl hcurP hcurW t ht
    simp only [List.all_cons, Bool.and_eq_true] at hl
    by_cases hc : ws c
    · by_cases h : cur = []
      · simp only [splitWSAux, if_pos hc, if_pos h] at ht
        exact splitWSAux_tokens ws P rest [] hl.2 rfl rfl t ht
      · simp only [splitWSAux, if_pos hc, if_neg h, List.mem_cons] at ht
        rcases ht with rfl | ht
        · exact ⟨h, hcurP, hcurW⟩
        · exact splitWSAux_tokens ws P rest [] hl.2 rfl rfl t ht
    · simp only [splitWSAux, if_neg hc] at ht
      refine splitWSAux_tokens ws P rest (cur ++ [c]) hl.2 ?_ ?_ t ht
      · simp [hcurP, hl.1]
      · simp only [List.all_append, Bool.and_eq_true]
        exact ⟨hcurW, by simp [hc]⟩

/-- On good input the `shlex` state machine never leaves the plain-token
mode and coincides with whitespace splitting (stated jointly for a
closed and an open current token). -/
theorem shlexRun_good :
    ∀ l : List Char, l.all goodChar = true →
      (∀ acc, shlexRun l .norm [] false acc =
        .ok (acc ++ splitWSAux shlexWS [] l)) ∧
      (∀ acc cur, cur ≠ [] → shlexRun l .norm cur true acc =
        .ok (acc ++ splitWSAux shlexWS cur l))
  | [], _ => by
    constructor
    · intro acc
      simp [shlexRun, splitWSAux]
    · intro acc cur hcur
      simp [shlexRun, splitWSAux, hcur]
  | c :: rest, hl => by
    simp only [List.all_cons, Bool.and_eq_true] at hl
    have hspec := goodChar_not_special hl.1
    have ih := shlexRun_good rest hl.2
    constructor
    · intro acc
      by_cases hc : shlexWS c
      · rw [shlexRun.eq_def]
        simp [hc, splitWSAux, ih.1]
      · have h1 : ¬ c = '\'' := fun h => hspec (Or.inl h)
        have h2 : ¬ c = '"' := fun h => hspec (Or.inr (Or.inl h))
        have h3 : ¬ c = '\\' := fun h => hspec (Or.inr (Or.inr h))
        rw [shlexRun.eq_def]
        simp [hc, h1, h2, h3, splitWSAux, ih.2]
    · intro acc cur hcur
      by_cases hc : shlexWS c
      · rw [shlexRun.eq_def]
        simp [hc, hcur, splitWSAux, ih.1]
      · have h1 : ¬ c = '\'' := fun h => hspec (Or.inl h)
        have h2 : ¬ c = '"' := fun h => hspec (Or.inr (Or.inl h))
        have h3 : ¬ c = '\\' := fun h => hspec (Or.inr (Or.inr h))
        rw [shlexRun.eq_def]
        simp [hc, h1, h2, h3, splitWSAux, ih.2]

/-- Dropping a satisfied-everywhere prefix leaves nothing. -/
theorem dropWhile_all_nil (p : Char → Bool) :
    ∀ l : List Char, l.all p = true → l.dropWhile p = []
  | [] => by simp
  | c :: rest => by
    intro h
    simp only [List.all_cons, Bool.and_eq_true] at h
    rw [List.dropWhile_cons_of_pos h.1]
    exact dropWhile_all_nil p rest h.2

/-- Stripping an all-whitespace string gives the empty string. -/
theorem pyStripL_all_ws (l : List Char) (h : l.all pyWS = true) :
    pyStripL l = [] := by
  unfold pyStripL dropTrailing
  rw [dropWhile_all_nil pyWS l h]
  rfl

/-- `" ".join` preserves any character property that holds of a space. -/
theorem joinL_all (P : Char → Bool) (hsp : P ' ' = true) :
    ∀ ts : List (List Char), (∀ t ∈ ts, t.all P = true) →
      (joinL ts).all P = true
  | [] => by simp [joinL]
  | [t] => by
    intro h
    simpa [joinL] using h t (by simp)
  | t :: u :: rest => by
    intro h
    have hrest := joinL_all P hsp (u :: rest) (fun t' ht' =>
      h t' (List.mem_cons_of_mem t ht'))
    simp only [joinL, List.all_append, List.all_cons, Bool.and_eq_true]
    exact ⟨by simpa using h t (by simp), hsp, hrest⟩

/-- Joining a non-empty first token is non-empty. -/
theorem joinL_ne_nil : ∀ (t : List Char) (ts : List (List Char)),
    t ≠ [] → joinL (t :: ts) ≠ []
  | t, [] => by
    intro h
    simpa [joinL] using h
  | t, u :: rest => by
    intro h
    simp [joinL, h]

/-- The reversed join starts with the last character of the last token,
which is not whitespace when no token character is. -/
theorem joinL_reverse_head :
    ∀ ts : List (List Char), ts ≠ [] →
      (∀ t ∈ ts, t ≠ [] ∧ t.all (fun c => ¬ pyWS c) = true) →
      ∃ c r, (joinL ts).reverse = c :: r ∧ pyWS c = false
  | [], h => absurd rfl h
  | [t], _ => by
    intro h
    obtain ⟨hne, hall⟩ := h t (by simp)
    cases ht : t.reverse with
    | nil => exact absurd (by simpa using ht) hne
    | cons c r =>
      refine ⟨c, r, by simpa [joinL] using ht, ?_⟩
      have hc : c ∈ t := by
        rw [← List.mem_reverse, ht]
        exact List.mem_cons_self c r
      simpa using List.all_eq_true.mp hall c hc
  | t :: u :: rest, _ => by
    intro h
    obtain ⟨c, r, hrev, hc⟩ := joinL_reverse_head (u :: rest) (by simp)
      (fun t' ht' => h t' (List.mem_cons_of_mem t ht'))
    refine ⟨c, r ++ ' ' :: t.reverse, ?_, hc⟩
    show (joinL (t :: u :: rest)).reverse = _
    rw [show joinL (t :: u :: rest) = t ++ ' ' :: joinL (u :: rest) from rfl]
    rw [List.reverse_append, List.reverse_cons, hrev]
    simp

/-- Stripping the join of non-empty, non-whitespace tokens changes
nothing. -/
theorem pyStripL_joinL :
    ∀ ts : List (List Char),
      (∀ t ∈ ts, t ≠ [] ∧ t.all (fun c => ¬ pyWS c) = true) →
      pyStripL (joinL ts) = joinL ts
  | [], _ => rfl
  | t :: ts', h => by
    obtain ⟨hne, hall⟩ := h t (by simp)
    have hfront : (joinL (t :: ts')).dropWhile pyWS = joinL (t :: ts') := by
      obtain ⟨c, t'', rfl⟩ : ∃ c t'', t = c :: t'' := by
        cases t with
        | nil => exact absurd rfl hne
        | cons c t'' => exact ⟨c, t'', rfl⟩
      have hcd : pyWS c = false := by
        simpa using List.all_eq_true.mp hall c (List.mem_cons_self c t'')
      cases ts' with
      | nil =>
        rw [show joinL [c :: t''] = c :: t'' from rfl]
        rw [List.dropWhile_cons_of_neg (by simp [hcd])]
      | cons u rest =>
        rw [show joinL ((c :: t'') :: u :: rest) =
          c :: (t'' ++ ' ' :: joinL (u :: rest)) from rfl]
        rw [List.dropWhile_cons_of_neg (by simp [hcd])]
    obtain ⟨c, r, hrev, hc⟩ := joinL_reverse_head (t :: ts') (by simp) h
    unfold pyStripL dropTrailing
    rw [hfront, hrev, List.dropWhile_cons_of_neg (by simp [hc]), ← hrev,
      List.reverse_reverse]

/-- Consuming a whitespace-free chunk extends the current token. -/
theorem splitWSAux_append_chunk (ws : Char → Bool) :
    ∀ (t cur r : List Char), t.all (fun c => ¬ ws c) = true →
      splitWSAux ws cur (t ++ r) = splitWSAux ws (cur ++ t) r
  | [], cur, r => by simp
  | c :: t', cur, r => by
    intro h
    simp only [List.all_cons, Bool.and_eq_true, decide_eq_true_eq] at h
    rw [List.cons_append, show splitWSAux ws cur (c :: (t' ++ r)) =
      splitWSAux ws (cur ++ [c]) (t' ++ r) by
        simp [splitWSAux, h.1]]
    rw [splitWSAux_append_chunk ws t' (cur ++ [c]) r (by
      simpa using h.2)]
    simp

/-- Splitting the join of non-empty whitespace-free tokens recovers the
tokens. -/
theorem splitWS_joinL (ws : Char → Bool) (hsp : ws ' ' = true) :
    ∀ ts : List (List Char),
      (∀ t ∈ ts, t ≠ [] ∧ t.all (fun c => ¬ ws c) = true) →
      splitWSAux ws [] (joinL ts) = ts
  | [], _ => rfl
  | [t], h => by
    obtain ⟨hne, hall⟩ := h t (by simp)
    rw [show joinL [t] = t from rfl, ← List.append_nil t,
      splitWSAux_append_chunk ws t [] [] hall]
    simp [splitWSAux, hne]
  | t :: u :: rest, h => by
    obtain ⟨hne, hall⟩ := h t (by simp)
    rw [show joinL (t :: u :: rest) = t ++ ' ' :: joinL (u :: rest) from rfl,
      splitWSAux_append_chunk ws t [] _ hall]
    rw [show splitWSAux ws ([] ++ t) (' ' :: joinL (u :: rest)) =
      t :: splitWSAux ws [] (joinL (u :: rest)) by
        simp [splitWSAux, hsp, hne]]
    rw [splitWS_joinL ws hsp (u :: rest)
      (fun t' ht' => h t' (List.mem_cons_of_mem t ht'))]

/-- On good input `_normalize` is exactly the single-space join of the
`shlex`-whitespace tokens. -/
theorem normalizeL_good (l : List Char) (hg : l.all goodChar = true) :
    normalizeL l = joinL (wsTokens l) := by
  have hrun := (shlexRun_good l hg).1 ([] : List (List Char))
  have htok := splitWSAux_tokens shlexWS goodChar l [] hg rfl rfl
  have htokpy : ∀ t ∈ splitWSAux shlexWS [] l,
      t ≠ [] ∧ t.all (fun c => ¬ pyWS c) = true := by
    intro t ht
    obtain ⟨h1, h2, h3⟩ := htok t ht
    refine ⟨h1, ?_⟩
    rw [List.all_eq_true]
    intro c hc
    have hgood := List.all_eq_true.mp h2 c hc
    have hnws : ¬ shlexWS c = true := by
      simpa using List.all_eq_true.mp h3 c hc
    have hnpy : ¬ pyWS c = true := fun hpy => hnws (goodChar_pyWS hgood hpy)
    simpa using hnpy
  unfold normalizeL
  rw [hrun]
  simp only [List.nil_append]
  rw [pyStripL_joinL _ htokpy]
  show _ = joinL (splitWSAux shlexWS [] l)
  cases htoks : splitWSAux shlexWS [] l with
  | nil =>
    have hallws : l.all shlexWS = true := splitWSAux_eq_nil shlexWS l htoks
    have hallpy : l.all pyWS = true := by
      rw [List.all_eq_true] at hallws ⊢
      exact fun c hc => shlexWS_pyWS (hallws c hc)
    rw [show joinL ([] : List (List Char)) = [] from rfl]
    rw [if_pos rfl, pyStripL_all_ws l hallpy]
  | cons t ts =>
    rw [htoks] at htokpy
    rw [if_neg (joinL_ne_nil t ts (htokpy t (by simp)).1)]

/-- Normalization of good input is stable under renormalization. -/
theorem normalizeL_good_idem (l : List Char) (hg : l.all goodChar = true) :
    normalizeL (normalizeL l) = normalizeL l := by
  rw [normalizeL_good l hg]
  have htok := splitWSAux_tokens shlexWS goodChar l [] hg rfl rfl
  have hjoin_good : (joinL (wsTokens l)).all goodChar = true :=
    joinL_all goodChar (by decide) _ (fun t ht => (htok t ht).2.1)
  rw [normalizeL_good _ hjoin_good]
  rw [show wsTokens (joinL (wsTokens l)) = wsTokens l from
    splitWS_joinL shlexWS (by decide) _
      (fun t ht => ⟨(htok t ht).1, (htok t ht).2.2⟩)]

/-- C9 counterexample: `_normalize` is not idempotent: the quoted
command `"a  b"` normalizes to `a  b` (the quotes protect the double
space from tokenization), which renormalizes to `a b`. -/
theorem normalize_not_idempotent_quoted :
    CommandScoreboard.normalize (CommandScoreboard.normalize "\"a  b\"") ≠
      CommandScoreboard.normalize "\"a  b\"" := by
  decide

/-- C9 (amended): normalization is whitespace-insensitive — two commands
of plain characters (no quotes, no backslashes, no whitespace beyond the
`shlex` set) with the same token sequence share one normal form — and
idempotent on such commands; in particular `"ls   -la"` and `"ls -la"`
agree.  Idempotence fails in general on quoted input (see the
counterexample). -/
theorem normalize_whitespace_amended :
    (∀ c : String, c.data.all goodChar = true →
      CommandScoreboard.normalize (CommandScoreboard.normalize c) =
        CommandScoreboard.normalize c) ∧
    (∀ c1 c2 : String, c1.data.all goodChar = true →
      c2.data.all goodChar = true → wsTokens c1.data = wsTokens c2.data →
      CommandScoreboard.normalize c1 = CommandScoreboard.normalize c2) ∧
    CommandScoreboard.normalize "ls   -la" = CommandScoreboard.normalize "ls -la" := by
  refine ⟨?_, ?_, by decide⟩
  · intro c hg
    show (⟨normalizeL (normalizeL c.data)⟩ : String) = ⟨normalizeL c.data⟩
    rw [normalizeL_good_idem c.data hg]
  · intro c1 c2 hg1 hg2 htoks
    show (⟨normalizeL c1.data⟩ : String) = ⟨normalizeL c2.data⟩
    rw [normalizeL_good c1.data hg1, normalizeL_good c2.data hg2, htoks]

/-- Witness for C9 at concrete inputs: idempotence on the plain command
`ls -la`, and whitespace-insensitivity between `ls   -la` and
`ls -la`. -/
theorem normalize_whitespace_amended_witness :
    CommandScoreboard.normalize (CommandScoreboard.normalize "ls -la") =
      CommandScoreboard.normalize "ls -la" ∧
    CommandScoreboard.normalize "ls   -la" = CommandScoreboard.normalize "ls -la" :=
  ⟨normalize_whitespace_amended.1 "ls -la" (by decide),
   normalize_whitespace_amended.2.1 "ls   -la" "ls -la" (by decide) (by decide)
     (by decide)⟩

end Sage
